import Mathlib

/-!
Verification of the observable core of ETOF_JS (ETO_Observable,
ETO_ObservableList, ETO_UndoRedoSystem and the invertible-command family)
against its specification. The JavaScript source is embedded shallowly:
objects become structures, observable state is passed explicitly, and each
JS method becomes a Lean function returning the new state together with the
notifications it emitted.
-/

set_option linter.unusedVariables false
set_option linter.unnecessarySeqFocus false

/-- JavaScript values, as far as the embedded code needs them: the primitives,
`null`, `undefined`, and references to plain objects, functions and
`ETO_Observable` instances. References are identified by a tag so that Lean
`=` models JS strict equality `===`, which is reference identity on objects.
JS numbers are modelled by exact rationals; every number the embedded code
manipulates is an ordinary finite decimal, where double arithmetic is exact
enough for the operations used (comparison, `toString`, `parseInt`). -/
inductive JSVal where
  | undef
  | vnull
  | vbool (b : Bool)
  | vnum (q : ℚ)
  | vstr (s : String)
  | vobj (id : Nat)
  | vfun (id : String)
  | vobs (id : Nat)
deriving DecidableEq, Repr

/-- True for value references that are `instanceof ETO_Observable`. -/
def JSVal.isObservable : JSVal → Bool
  | .vobs _ => true
  | _ => false

/-- True for the values whose `typeof` is `"string"`, `"boolean"` or
`"number"` — the primitive cases of the serialization code. -/
def JSVal.isPrimitive : JSVal → Bool
  | .vstr _ => true
  | .vbool _ => true
  | .vnum _ => true
  | _ => false

/-- Models `parseInt(x.toString(), 10)` for a finite JS number `x` written by
`toString` in plain decimal notation: `parseInt` consumes the optional sign
and the integer digits and stops at the decimal point, so the result is `x`
truncated toward zero — the T-division of the reduced fraction's numerator by
its denominator. -/
def jsParseIntDecimal (q : ℚ) : Int :=
  q.num.tdiv q.den

/-- Replacement of the first occurrence of `pat` inside a character list. -/
def replaceFirstChars (pat rep : List Char) : List Char → List Char
  | [] => if pat.isEmpty then rep else []
  | c :: rest =>
      if pat.isPrefixOf (c :: rest) then rep ++ (c :: rest).drop pat.length
      else c :: replaceFirstChars pat rep rest

/-- Models the JS `String.prototype.replace(pat, rep)` with a string pattern:
only the first occurrence of `pat` is replaced, and the string is returned
unchanged when `pat` does not occur in it. -/
def jsReplaceOnce (s pat rep : String) : String :=
  String.mk (replaceFirstChars pat.data rep.data s.data)

/-! ## ETO_Observable (src/unnamed/part_000, lines 39-531)

An observable object is a bag of properties plus the `m_observers` array and
the `m_simpleSerialize` slot installed by the constructor. Properties are
recorded in definition order together with the kind of accessor
`addProperty`/`addPropertyWithPrivateSet`/`addPropertyWithSetFilter`
installed for them. -/

/-- The kind of own property an `ETO_Observable` instance can carry:
`plain` is the get/set accessor pair `addProperty` installs for a writable
property; `readOnly` is the non-writable data property of the
`writable === false` branch; `privateSet` is the getter-only accessor of
`addPropertyWithPrivateSet`; `filtered` is the accessor of
`addPropertyWithSetFilter`, carrying its filter function; `dataOnly` is the
ordinary data property raw JS assignment creates for an absent name. -/
inductive PropKind where
  | plain
  | readOnly
  | privateSet
  | filtered (filterFunc : JSVal → JSVal → JSVal)
  | dataOnly

/-- True exactly for the non-writable data-property kind. -/
def PropKind.isReadOnlyData : PropKind → Bool
  | .readOnly => true
  | _ => false

/-- True exactly for the getter-only kind of `addPropertyWithPrivateSet`. -/
def PropKind.isPrivateSet : PropKind → Bool
  | .privateSet => true
  | _ => false

/-- One own property of an observable object: its name, current value
(the `propertyValue`/`backingVar` closure variable for accessor kinds), the
`enumerable` and `configurable` descriptor flags, and its kind. -/
structure ObsProp where
  name : String
  value : JSVal
  enumerable : Bool
  configurable : Bool
  kind : PropKind

/-- Whether ordinary assignment can change the property: true for the
accessor kinds that install a setter and for writable data properties,
false for read-only data properties and getter-only private-set
properties. This is the behavioural writable flag of the data model. -/
def ObsProp.isWritable (p : ObsProp) : Bool :=
  match p.kind with
  | .plain => true
  | .readOnly => false
  | .privateSet => false
  | .filtered _ => true
  | .dataOnly => true

/-- What an observer callback registered through `addChangeObserver` does to
the observer registry when invoked: nothing (`record`), it removes its own
handle (`removeSelf`), or it removes the handle with a given id
(`removeById`). This is a defunctionalisation of the callback closures the
claims exercise; the callbacks' other effects play no role in the
notification bookkeeping. -/
inductive ObsAction where
  | record
  | removeSelf
  | removeById (hid : Nat)
deriving DecidableEq, Repr

/-- An observer handle as stored in `m_observers`: handles are distinct
frozen objects, modelled by a unique id, together with the behaviour of the
callback they carry. -/
structure ObserverHandle where
  id : Nat
  action : ObsAction
deriving DecidableEq, Repr

/-- `ETO_Observable.prototype.removeChangeObserver` (part_000 lines 422-433):
splices out the first entry of the array that is `==` the given handle. -/
def removeHandle : List ObserverHandle → ObserverHandle → List ObserverHandle
  | [], _ => []
  | o :: rest, h => if o = h then rest else o :: removeHandle rest h

/-- Removal of the first handle carrying a given id, the effect of a callback
that calls `removeChangeObserver` with another observer's handle. -/
def removeById : List ObserverHandle → Nat → List ObserverHandle
  | [], _ => []
  | o :: rest, hid => if o.id = hid then rest else o :: removeById rest hid

/-- The mutation a callback applies to the live observer array when invoked. -/
def applyAction (obs : List ObserverHandle) (ob : ObserverHandle) :
    List ObserverHandle :=
  match ob.action with
  | .record => obs
  | .removeSelf => removeHandle obs ob
  | .removeById hid => removeById obs hid

/-- The loop of `ETO_Observable.prototype.notifyAll` (part_000 lines 405-419):
`for (var i = 0; i < this.m_observers.length; i++)` iterates the live
`m_observers` array by increasing index, invoking each callback in turn; a
callback may mutate the array in place. The result is the final array and the
ids of the observers invoked, in invocation order. The per-observer copy of
the change details (cloned `senders`, `sender`, `userData`) is faithful
per-observer data that does not affect which observers run, so only the
invocation log is kept. -/
def notifyLoop : Nat → List ObserverHandle → Nat → List Nat →
    List ObserverHandle × List Nat
  | 0, obs, _, log => (obs, log)
  | fuel + 1, obs, i, log =>
      if h : i < obs.length then
        notifyLoop fuel (applyAction obs (obs.get ⟨i, h⟩)) (i + 1)
          (log ++ [(obs.get ⟨i, h⟩).id])
      else (obs, log)

/-- One `notifyAll` call: a full pass of the notification loop from index 0.
The first argument of `notifyLoop` is fuel making the recursion structural:
`i` rises by one per iteration while the array never grows
(`applyAction_length_le`), so the loop runs at most `obs.length` iterations
and with that much fuel the function acts exactly like the unbounded JS
loop — when the fuel runs out, `i` has reached the original length, which
bounds the current length, and the loop guard has already failed. -/
def notifyAllLog (obs : List ObserverHandle) : List ObserverHandle × List Nat :=
  notifyLoop obs.length obs 0 []

/-- An `ETO_Observable` instance: own properties in definition order, the
`m_observers` array, and the `m_simpleSerialize` slot. -/
structure ETO_Observable where
  props : List ObsProp
  m_observers : List ObserverHandle
  m_simpleSerialize : Bool

/-- First own property with the given name, if any. -/
def findProp : List ObsProp → String → Option ObsProp
  | [], _ => none
  | p :: ps, nm => if p.name = nm then some p else findProp ps nm

/-- The members of `ETO_Observable.prototype` (part_000): each is assigned as
an enumerable function-valued property of the prototype object. -/
def observableProtoNames : List String :=
  ["addChangeObserver", "addDeserializedProperty", "addProperty",
   "addPropertyWithPrivateSet", "addPropertyWithSetFilter", "addROProperty",
   "notifyAll", "removeChangeObserver", "removeProperty", "seal",
   "toJSON", "toString"]

/-- The standard function-valued members of `Object.prototype`, the next
object on the prototype chain of an `ETO_Observable` instance. -/
def objectProtoNames : List String :=
  ["constructor", "hasOwnProperty", "isPrototypeOf", "propertyIsEnumerable",
   "toLocaleString", "toString", "valueOf"]

/-- The own non-enumerable slots the `ETO_Observable` constructor installs
with `Object.defineProperty`; both hold non-undefined values (an array and a
boolean). -/
def internalSlotNames : List String := ["m_observers", "m_simpleSerialize"]

/-- Models the JS test `this[nm] !== undefined` on an `ETO_Observable`
instance: the internal slots hold non-undefined values; an own property
answers with its current value, shadowing the prototype; otherwise the
lookup walks the prototype chain, where every member of
`ETO_Observable.prototype` and `Object.prototype` is a function and hence
not undefined. -/
def ETO_Observable.memberIsDefined (o : ETO_Observable) (nm : String) : Bool :=
  internalSlotNames.contains nm ||
    (match findProp o.props nm with
     | some p => p.value != JSVal.undef
     | none => observableProtoNames.contains nm || objectProtoNames.contains nm)

/-- Replaces the value of the first property with the given name. -/
def setPropValue : List ObsProp → String → JSVal → List ObsProp
  | [], _, _ => []
  | p :: ps, nm, v =>
      if p.name = nm then { p with value := v } :: ps
      else p :: setPropValue ps nm v

/-- Replaces the first property carrying `q.name` by `q` (the redefinition
`Object.defineProperty` performs on an existing configurable property). -/
def replaceProp : List ObsProp → ObsProp → List ObsProp
  | [], _ => []
  | p :: ps, q => if p.name = q.name then q :: ps else p :: replaceProp ps q

/-- `ETO_Observable.prototype.addProperty` (part_000 lines 174-240).
`propertyName = none` models a `null` or `undefined` name argument; the
optional flags default to `true` when omitted (`none`). The overall result is
`none` when `Object.defineProperty` throws a `TypeError`: that can happen
only when an existing own non-configurable property currently holds
`undefined` (so the duplicate check passed); `defineProperty` still permits
redefining a non-configurable read-only data property with an identical data
descriptor, which is modelled. Otherwise the result carries the returned
boolean, the new object state, and the ids of the observers the add
notification invoked. -/
def ETO_Observable.addProperty (o : ETO_Observable) (propertyName : Option String)
    (propertyValue : JSVal) (removable writable isEnumerable : Option Bool) :
    Option (Bool × ETO_Observable × List Nat) :=
  match propertyName with
  | none => some (false, o, [])
  | some nm =>
    if nm = "ETO_Observable_Properties" then some (false, o, [])
    else if o.memberIsDefined nm then some (false, o, [])
    else
      let rem := removable.getD true
      let wr := writable.getD true
      let en := isEnumerable.getD true
      let newProp : ObsProp :=
        ⟨nm, propertyValue, en, rem, if wr then .plain else .readOnly⟩
      match findProp o.props nm with
      | none =>
          let r := notifyAllLog o.m_observers
          some (true, ⟨o.props ++ [newProp], r.1, o.m_simpleSerialize⟩, r.2)
      | some p =>
          if p.configurable then
            let r := notifyAllLog o.m_observers
            some (true, ⟨replaceProp o.props newProp, r.1, o.m_simpleSerialize⟩, r.2)
          else if !wr && p.kind.isReadOnlyData && p.value == propertyValue &&
              p.enumerable == en && !rem then
            let r := notifyAllLog o.m_observers
            some (true, ⟨o.props, r.1, o.m_simpleSerialize⟩, r.2)
          else none

/-- `ETO_Observable.prototype.addROProperty` (part_000 lines 381-384). -/
def ETO_Observable.addROProperty (o : ETO_Observable) (propertyName : Option String)
    (propertyValue : JSVal) (isEnumerable : Option Bool) :
    Option (Bool × ETO_Observable × List Nat) :=
  o.addProperty propertyName propertyValue (some false) (some false) isEnumerable

/-- `ETO_Observable.prototype.addPropertyWithPrivateSet` (part_000 lines
247-296). The first component of the result models the return value: `true`
when the setter function was returned, `false` for the `null` return of a
rejected add. The installed property is non-configurable with no setter;
`none` models the defineProperty `TypeError` exactly as in `addProperty`
(the fresh getter closure never matches an existing accessor, so a
non-configurable existing property always throws). -/
def ETO_Observable.addPropertyWithPrivateSet (o : ETO_Observable)
    (propertyName : Option String) (propertyValue : JSVal) (isEnumerable : Option Bool) :
    Option (Bool × ETO_Observable × List Nat) :=
  match propertyName with
  | none => some (false, o, [])
  | some nm =>
    if nm = "ETO_Observable_Properties" then some (false, o, [])
    else if o.memberIsDefined nm then some (false, o, [])
    else
      let en := isEnumerable.getD true
      let newProp : ObsProp := ⟨nm, propertyValue, en, false, .privateSet⟩
      match findProp o.props nm with
      | none =>
          let r := notifyAllLog o.m_observers
          some (true, ⟨o.props ++ [newProp], r.1, o.m_simpleSerialize⟩, r.2)
      | some p =>
          if p.configurable then
            let r := notifyAllLog o.m_observers
            some (true, ⟨replaceProp o.props newProp, r.1, o.m_simpleSerialize⟩, r.2)
          else none

/-- `ETO_Observable.prototype.addPropertyWithSetFilter` (part_000 lines
326-376). `setFilterFunc = none` models an argument that is not a `Function`
(rejected before the duplicate check); `none` as overall result models the
defineProperty `TypeError` as in `addProperty`. -/
def ETO_Observable.addPropertyWithSetFilter (o : ETO_Observable)
    (propertyName : Option String) (propertyValue : JSVal)
    (setFilterFunc : Option (JSVal → JSVal → JSVal))
    (removable isEnumerable : Option Bool) :
    Option (Bool × ETO_Observable × List Nat) :=
  match propertyName with
  | none => some (false, o, [])
  | some nm =>
    if nm = "ETO_Observable_Properties" then some (false, o, [])
    else
      match setFilterFunc with
      | none => some (false, o, [])
      | some f =>
        if o.memberIsDefined nm then some (false, o, [])
        else
          let rem := removable.getD true
          let en := isEnumerable.getD true
          let newProp : ObsProp := ⟨nm, propertyValue, en, rem, .filtered f⟩
          match findProp o.props nm with
          | none =>
              let r := notifyAllLog o.m_observers
              some (true, ⟨o.props ++ [newProp], r.1, o.m_simpleSerialize⟩, r.2)
          | some p =>
              if p.configurable then
                let r := notifyAllLog o.m_observers
                some (true, ⟨replaceProp o.props newProp, r.1, o.m_simpleSerialize⟩, r.2)
              else none

/-- Ordinary JS assignment `o[nm] = v` on an `ETO_Observable` instance,
dispatching on the kind of the own property found at `nm`: the `plain` setter
(part_000 lines 210-226) returns silently when the assigned value is `===`
the current one and otherwise stores it and calls `notifyAll`; a read-only
data property and a getter-only property make the assignment a silent no-op
in non-strict code; a `filtered` setter (lines 354-368) first runs the filter
and compares the filtered value; assignment to an absent name creates an
ordinary own data property with no notification. Returns the new object
state and the invocation log of the `notifyAll` pass, if one ran. -/
def ETO_Observable.assign (o : ETO_Observable) (nm : String) (v : JSVal) :
    ETO_Observable × List Nat :=
  match findProp o.props nm with
  | none =>
      ({ o with props := o.props ++ [⟨nm, v, true, true, .dataOnly⟩] }, [])
  | some p =>
    match p.kind with
    | .plain =>
        if p.value = v then (o, [])
        else
          let r := notifyAllLog o.m_observers
          (⟨setPropValue o.props nm v, r.1, o.m_simpleSerialize⟩, r.2)
    | .readOnly => (o, [])
    | .privateSet => (o, [])
    | .filtered f =>
        let v2 := f v p.value
        if p.value = v2 then (o, [])
        else
          let r := notifyAllLog o.m_observers
          (⟨setPropValue o.props nm v2, r.1, o.m_simpleSerialize⟩, r.2)
    | .dataOnly => ({ o with props := setPropValue o.props nm v }, [])

/-- A call of the private setter function `addPropertyWithPrivateSet`
returned for the property named `nm` (part_000 lines 266-281): a silent
return when the new value is `===` the backing variable, otherwise the
backing variable is replaced and `notifyAll` runs. (The setter is a closure
tied to one property; calling it presumes that property was installed, i.e.
`findProp` yields its `privateSet` entry.) -/
def ETO_Observable.privateSetCall (o : ETO_Observable) (nm : String) (newValue : JSVal) :
    ETO_Observable × List Nat :=
  match findProp o.props nm with
  | none => (o, [])
  | some p =>
      if p.value = newValue then (o, [])
      else
        let r := notifyAllLog o.m_observers
        (⟨setPropValue o.props nm newValue, r.1, o.m_simpleSerialize⟩, r.2)

/-! ## Serialization (part_000 lines 122-150 and 470-526) -/

/-- One element of the `ETO_Observable_SerializedData` array `toJSON` builds:
a property descriptor with the six members the code stores. -/
structure SerializedProp where
  name : String
  value : JSVal
  enumerable : Bool
  writable : Bool
  configurable : Bool
  varType : String
deriving DecidableEq, Repr

/-- The `writable` bit `toJSON` computes from the own-property descriptor
(part_000 lines 494-509): an accessor descriptor returned by
`Object.getOwnPropertyDescriptor` always owns a `set` key — holding
`undefined` for a getter-only property — so `desc.hasOwnProperty("set")` is
true for every accessor kind, including `privateSet`, and those serialize as
writable; only a read-only data property reaches the
`desc.hasOwnProperty("writable")` branch and serializes as non-writable. -/
def serializedWritable : PropKind → Bool
  | .plain => true
  | .readOnly => false
  | .privateSet => true
  | .filtered _ => true
  | .dataOnly => true

/-- The `varType` string of a property value (part_000 lines 512-519):
`typeof`, refined for `"object"` values to `this[name].constructor.name`.
Reading `.constructor` of `null` throws a `TypeError`, modelled by `none`. -/
def JSVal.varTypeName : JSVal → Option String
  | .vstr _ => some "string"
  | .vbool _ => some "boolean"
  | .vnum _ => some "number"
  | .undef => some "undefined"
  | .vfun _ => some "function"
  | .vnull => none
  | .vobj _ => some "Object"
  | .vobs _ => some "ETO_Observable"

/-- The descriptor `toJSON` pushes for one own enumerable property. -/
def descOf (p : ObsProp) : Option SerializedProp :=
  (p.value.varTypeName).map fun t =>
    ⟨p.name, p.value, p.enumerable, serializedWritable p.kind, p.configurable, t⟩

/-- The array `ETO_Observable.prototype.toJSON` (part_000 lines 470-526)
stores under `ETO_Observable_SerializedData` when `m_simpleSerialize` is
false: one descriptor per own enumerable property, in definition order,
skipping the names `m_observers` and `m_toString`; inherited enumerable
prototype members are skipped by the `!desc` check since they are not own
properties. `none` models the `TypeError` thrown while reading the
constructor name of a `null`-valued property. (When `m_simpleSerialize` is
true `toJSON` returns the object itself and builds no such array.) -/
def ETO_Observable.serializedData (o : ETO_Observable) : Option (List SerializedProp) :=
  (o.props.filter fun p =>
      p.enumerable && !(p.name == "m_observers") && !(p.name == "m_toString")).mapM descOf

/-- `ETO_Observable.prototype.addDeserializedProperty` (part_000 lines
122-150): a primitive `varType` adds the value as-is through `addProperty`
(with the descriptor's flags, `configurable` as the `removable` argument);
otherwise the code looks the type name up on the global object and rebuilds
the value with `new`. No constructor the claims exercise lives there, so the
lookup-failure branch — return `false`, property dropped — is the modelled
outcome for every non-primitive descriptor. -/
def ETO_Observable.addDeserializedProperty (o : ETO_Observable) (d : SerializedProp) :
    Option (Bool × ETO_Observable × List Nat) :=
  if d.varType = "string" ∨ d.varType = "boolean" ∨ d.varType = "number" then
    o.addProperty (some d.name) d.value (some d.configurable) (some d.writable)
      (some d.enumerable)
  else
    some (false, o, [])

/-- The `ETO_Observable` constructor applied to an object carrying
`ETO_Observable_SerializedData` (part_000 lines 39-73): starts from a fresh
instance (empty property table, empty observer array) and runs
`addDeserializedProperty` over the descriptor array in order. Every
descriptor of this model carries a `varType`, so the
`desc.varType === undefined` skip never fires. `none` propagates a
defineProperty `TypeError`. -/
def ETO_Observable.ofSerializedData (descs : List SerializedProp)
    (simpleSerialize : Bool) : Option ETO_Observable :=
  descs.foldlM (fun o d => (o.addDeserializedProperty d).map fun r => r.2.1)
    ⟨[], [], simpleSerialize⟩

/-- The property the descriptor-list constructor recreates from the
serialized form of `p`: name, value and the enumerable/configurable flags
survive, while the kind collapses to `plain` or `readOnly` according to the
serialized `writable` bit. -/
def ObsProp.roundtrip (p : ObsProp) : ObsProp :=
  ⟨p.name, p.value, p.enumerable, p.configurable,
    if serializedWritable p.kind then .plain else .readOnly⟩

/-- The descriptor `toJSON` builds for a property holding a primitive value
(where the `varType` lookup cannot throw). -/
def primDescOf (p : ObsProp) : SerializedProp :=
  ⟨p.name, p.value, p.enumerable, serializedWritable p.kind, p.configurable,
    p.value.varTypeName.getD "undefined"⟩

/-- The property `addDeserializedProperty` recreates from one primitive
descriptor. -/
def reconsProp (d : SerializedProp) : ObsProp :=
  ⟨d.name, d.value, d.enumerable, d.configurable,
    if d.writable then .plain else .readOnly⟩

/-- Names on which the duplicate check of the add operations passes for a
fresh observable: not the reserved sentinel, not an internal slot, and not a
member of the prototype chain (all of which make `this[name] !== undefined`
true). Every other string can become an own observable property — including
"m_toString", a name `addProperty` accepts but `toJSON` later skips (part_000
line 484), so creatability alone does NOT guarantee the property survives
serialization. -/
def creatableName (nm : String) : Prop :=
  nm ≠ "ETO_Observable_Properties" ∧ nm ∉ internalSlotNames ∧
    nm ∉ observableProtoNames ∧ nm ∉ objectProtoNames

instance (nm : String) : Decidable (creatableName nm) := by
  unfold creatableName
  infer_instance

/-! ## ETO_ObservableList (src/unnamed/part_000, lines 549-1124)

The list keeps its items in the non-enumerable `m_storage` array as tuples
`[item, observerHandleIfItemIsETO_Observable]`. When an item is an
`ETO_Observable`, `add` (and the index setter) registers an
`itemChangeCallback` closure on it; the handle stored in the tuple is the
registration that closure produced, so the subscriptions the list holds on an
item are exactly the handles sitting in tuples alongside it. -/

/-- The data captured by an `itemChangeCallback` closure (part_000 lines
617-624 in `add`, 893-899 in the index setter): the `item`/`newItem` and
`insertionIndex`/`index` variables it closed over. The record stands for the
observer handle kept in the storage tuple, since tuple handle and
registration are the same object. -/
structure ListSub where
  listItem : JSVal
  index : Nat
deriving DecidableEq, Repr

/-- One `notifyObservers` call on the list: the change details after the
emitting site filled them in (`listChangeType` present only for structural
add/remove/replace events; `listItem` present only on events forwarded from
an item by an `itemChangeCallback`). The `object`, `sender` and `senders`
provenance fields are determined by the emitting site and are not needed by
the claims. -/
structure ListEvent where
  listChangeType : Option String
  name : String
  index : Nat
  listItem : Option JSVal
  oldValue : Option JSVal
deriving DecidableEq, Repr

/-- An `ETO_ObservableList` instance: the `m_storage` tuples and the optional
`m_addValidator` the constructor captured. (The list's own `m_observers`
array only filters how each emitted event is delivered; the claims count the
emitted events, so it is not carried.) -/
structure ETO_ObservableList where
  m_storage : List (JSVal × Option ListSub)
  m_addValidator : Option (JSVal → Bool)

/-- The `length` property (part_000 lines 849-850). -/
def ETO_ObservableList.length (s : ETO_ObservableList) : Nat := s.m_storage.length

/-- The validator test of `add` (part_000 lines 604-608): with a validator
present, the item passes exactly when the validator returns `true`; with no
validator every item passes. -/
def ETO_ObservableList.validatorAccepts (s : ETO_ObservableList) (item : JSVal) : Bool :=
  match s.m_addValidator with
  | some valid => valid item
  | none => true

/-- The body of `add` after the insertion index has been validated (part_000
lines 604-653): run the validator if present, register the item-change
observer when the item is an `ETO_Observable` (the closure captures the item
and the insertion index), insert the tuple, and emit the "add" event. The
index accessors rebuilt for the shifted tail (lines 640-643) are implicit in
the storage model. -/
def ETO_ObservableList.addChecked (s : ETO_ObservableList) (item : JSVal) (idx : Nat) :
    Bool × ETO_ObservableList × List ListEvent :=
  if s.validatorAccepts item then
    let observerHandle : Option ListSub :=
      if item.isObservable then some ⟨item, idx⟩ else none
    (true, ⟨s.m_storage.insertIdx idx (item, observerHandle), s.m_addValidator⟩,
      [⟨some "add", toString idx, idx, none, none⟩])
  else (false, s, [])

/-- `ETO_ObservableList.prototype.add` (part_000 lines 590-654). The optional
`insertionIndex` argument is a JS number (`none` when the argument was
`undefined`, which selects the end of the list); a provided number runs
through `parseInt(insertionIndex.toString(), 10)` and is rejected exactly
when the parsed integer falls outside `[0, length]`. -/
def ETO_ObservableList.add (s : ETO_ObservableList) (item : JSVal)
    (insertionIndex : Option ℚ) : Bool × ETO_ObservableList × List ListEvent :=
  match insertionIndex with
  | none => s.addChecked item s.m_storage.length
  | some q =>
      let i := jsParseIntDecimal q
      if i < 0 ∨ i > (s.m_storage.length : Int) then (false, s, [])
      else s.addChecked item i.toNat

/-- Line 955: `ETO_ObservableList.prototype.push = ETO_ObservableList.prototype.add` —
`push` is the very same function object as `add`. -/
def ETO_ObservableList.push : ETO_ObservableList → JSVal → Option ℚ →
    Bool × ETO_ObservableList × List ListEvent :=
  ETO_ObservableList.add

/-- `ETO_ObservableList.prototype.remove` (part_000 lines 964-1019). `count`
defaults to 1 when omitted (`none`); a start index outside `[0, length)` or a
non-positive count removes nothing; the count is clamped to the end of the
list. Removed tuples leave the storage (tearing down their change observers)
and one "remove" event per removed item is emitted, carrying the item's
original index and the item as `oldValue`. -/
def ETO_ObservableList.remove (s : ETO_ObservableList) (startIndex : Int)
    (count : Option Int) : Nat × ETO_ObservableList × List ListEvent :=
  let c0 := count.getD 1
  if startIndex < 0 ∨ startIndex ≥ (s.m_storage.length : Int) then (0, s, [])
  else if c0 ≤ 0 then (0, s, [])
  else
    let st := startIndex.toNat
    let c := if (startIndex + c0 : Int) > (s.m_storage.length : Int) then
        s.m_storage.length - st
      else c0.toNat
    let removed := (s.m_storage.drop st).take c
    (removed.length,
      ⟨s.m_storage.take st ++ s.m_storage.drop (st + c), s.m_addValidator⟩,
      removed.enum.map fun p =>
        ⟨some "remove", toString (st + p.1), st + p.1, none, some p.2.1⟩)

/-- `ETO_ObservableList.prototype.removeLast` (part_000 lines 1034-1043). -/
def ETO_ObservableList.removeLast (s : ETO_ObservableList) :
    Bool × ETO_ObservableList × List ListEvent :=
  if s.m_storage.length = 0 then (false, s, [])
  else
    let r := s.remove ((s.m_storage.length : Int) - 1) none
    (r.1 = 1, r.2.1, r.2.2)

/-- The index-property setter `makeIndexProperty` installs (part_000 lines
864-906), i.e. `theList[index] = newItem` for an index holding an accessor
(`index < length`): assigning the very item already stored is a silent no-op;
otherwise the old tuple's change observer is torn down, the new item stored —
with a fresh `itemChangeCallback` closure capturing this accessor's `index`
when it is an `ETO_Observable` — and a "replace" event is emitted. (For an
index with no accessor the assignment is a raw property write on the list
object, outside the storage model; no claim touches it, and it leaves the
storage unchanged, which is how it is modelled.) -/
def ETO_ObservableList.setIndex (s : ETO_ObservableList) (index : Nat)
    (newItem : JSVal) : ETO_ObservableList × List ListEvent :=
  match s.m_storage[index]? with
  | none => (s, [])
  | some tup =>
      if tup.1 = newItem then (s, [])
      else
        let sub : Option ListSub :=
          if newItem.isObservable then some ⟨newItem, index⟩ else none
        (⟨s.m_storage.set index (newItem, sub), s.m_addValidator⟩,
          [⟨some "replace", toString index, index, none, some tup.1⟩])

/-- The insertion loop at the end of `splice` (part_000 lines 1087-1090):
`this.add(arguments[i], startIndex + (i - 2))` for each provided item, each
call going through `add`'s own index validation. -/
def spliceInsertLoop (start : Int) :
    ETO_ObservableList → List JSVal → Nat → ETO_ObservableList × List ListEvent
  | s, [], _ => (s, [])
  | s, it :: rest, k =>
      let r := s.add it (some ((start + (k : Int) : Int) : ℚ))
      let next := spliceInsertLoop start r.2.1 rest (k + 1)
      (next.1, r.2.2 ++ next.2)

/-- `ETO_ObservableList.prototype.splice` (part_000 lines 1066-1093):
clamps `startIndex` as MDN specifies, defaults `deleteCount` to the rest of
the list and clamps it from above, collects the `removedItems` return array,
removes through `remove`, then inserts the provided items at ascending
positions through `add`. NOTE the `removedItems` loop (lines 1080-1083) runs
from `startIndex` to the end of `m_storage`, not to
`startIndex + deleteCount`. -/
def ETO_ObservableList.splice (s : ETO_ObservableList) (startIndex : Int)
    (deleteCount : Option Int) (itemsToInsert : List JSVal) :
    List JSVal × ETO_ObservableList × List ListEvent :=
  let len : Int := (s.m_storage.length : Int)
  let start : Int :=
    if startIndex > len then len
    else if startIndex < -len then 0
    else if startIndex < 0 then len + startIndex
    else startIndex
  let dc : Int :=
    match deleteCount with
    | none => len - start
    | some d => if d > len - start then len - start else d
  let removedItems := (s.m_storage.drop start.toNat).map Prod.fst
  let r := s.remove start (some dc)
  let ins := spliceInsertLoop start r.2.1 itemsToInsert 0
  (removedItems, ins.1, r.2.2 ++ ins.2)

/-- The list-side effect of a mutation of property `propName` (old value
`oldValue`) of the item `target` while it sits in the list: `target`'s own
`notifyAll` invokes every `itemChangeCallback` the list registered on it —
the handles held in storage tuples alongside `target` — and each callback
stamps its captured `listItem` and `index` onto the details and relays them
through `notifyObservers` (part_000 lines 617-624), producing one forwarded
notification on the list per live subscription. -/
def ETO_ObservableList.forwardItemChange (s : ETO_ObservableList) (target : JSVal)
    (propName : String) (oldValue : JSVal) : List ListEvent :=
  s.m_storage.filterMap fun tup =>
    if tup.1 = target then
      tup.2.map fun sub => ⟨none, propName, sub.index, some sub.listItem, some oldValue⟩
    else none

/-- The indices at which an item currently sits in the list. -/
def ETO_ObservableList.positionsOf (s : ETO_ObservableList) (item : JSVal) : List Nat :=
  s.m_storage.enum.filterMap fun p => if p.2.1 = item then some p.1 else none

/-- The list states reachable from a freshly constructed list through the
list's own mutating operations (`clear` and the copying constructor go
through `remove` and `add` and add no further reachable states). -/
inductive ETO_ObservableList.Reach : ETO_ObservableList → Prop where
  | init (valid : Option (JSVal → Bool)) : Reach ⟨[], valid⟩
  | add (s : ETO_ObservableList) (item : JSVal) (idx : Option ℚ) :
      Reach s → Reach (s.add item idx).2.1
  | remove (s : ETO_ObservableList) (a : Int) (c : Option Int) :
      Reach s → Reach (s.remove a c).2.1
  | setIndex (s : ETO_ObservableList) (i : Nat) (it : JSVal) :
      Reach s → Reach (s.setIndex i it).1
  | splice (s : ETO_ObservableList) (a : Int) (d : Option Int) (items : List JSVal) :
      Reach s → Reach (s.splice a d items).2.1

/-- The storage invariant: a tuple carries a subscription exactly when its
item is an `ETO_Observable`, and that subscription's captured `listItem` is
the tuple's item. -/
def ETO_ObservableList.WFStorage (s : ETO_ObservableList) : Prop :=
  ∀ tup ∈ s.m_storage,
    match tup.2 with
    | none => tup.1.isObservable = false
    | some sub => sub.listItem = tup.1 ∧ tup.1.isObservable = true

/-! ## Invertible commands and ETO_UndoRedoSystem
(ETO_Foundation.js and src/unnamed/part_001) -/

/-- Invertible command objects (the `ETO_InvertibleCmd` family of
ETO_Foundation.js): a command's `exec()` performs its action and returns the
command that undoes it. `prim inv` models a leaf command (such as
`ETO_SetPropertyCmd`) by the command its `exec` returns — the external side
effect plays no part in the stack bookkeeping the claims concern.
`composite cmds` is `ETO_InvertibleCmds` over its captured array. -/
inductive Cmd where
  | prim (inv : Cmd)
  | composite (cmds : List Cmd)

mutual

/-- `exec()`: a leaf yields its inverse; `ETO_InvertibleCmds.exec`
(ETO_Foundation.js lines 74-82) executes each sub-command in order, storing
the inverses in reverse order, and wraps them in a new composite. -/
def Cmd.exec : Cmd → Cmd
  | .prim inv => inv
  | .composite cmds => .composite (Cmd.execList cmds).reverse

/-- The loop of `ETO_InvertibleCmds.exec` before the order reversal. -/
def Cmd.execList : List Cmd → List Cmd
  | [] => []
  | c :: cs => c.exec :: Cmd.execList cs

end

/-- One `notifyAll` call made by the undo/redo system: the `name` and
`oldValue` members of the change details it passed. -/
structure URNote where
  name : String
  oldValue : JSVal
deriving DecidableEq, Repr

/-- An `ETO_UndoRedoSystem` instance (part_001 lines 27-56): the two stacks
of `[text, cmd]` pairs — the top of each JS array-stack is the HEAD of the
Lean list — and the two observable text properties. `undoCount`/`redoCount`
are the derived lengths. -/
structure ETO_UndoRedoSystem where
  m_undos : List (String × Cmd)
  m_redos : List (String × Cmd)
  undoText : String
  redoText : String

/-- The freshly constructed system: empty stacks, default labels. -/
def ETO_UndoRedoSystem.init : ETO_UndoRedoSystem := ⟨[], [], "Undo", "Redo"⟩

/-- Assignment to the observable `undoText`/`redoText` property the
constructor installed through `addProperty`: the plain setter stores the new
value and fires one `notifyAll` with the old value exactly when the value
actually changes (part_000 lines 210-226). -/
def setTextProp (nm : String) (cur new : String) : String × List URNote :=
  if cur = new then (cur, [])
  else (new, [⟨nm, JSVal.vstr cur⟩])

/-- The second argument of `addUndo`: one command object or an array of
command objects. -/
inductive CmdArg where
  | single (c : Cmd)
  | arr (cs : List Cmd)

/-- Lines 70-73 of part_001: an array argument is packaged into an
`ETO_InvertibleCmds` composite, a single command is used as-is. -/
def CmdArg.wrap : CmdArg → Cmd
  | .single c => c
  | .arr cs => Cmd.composite cs

/-- `ETO_UndoRedoSystem.prototype.addUndo` (part_001 lines 67-105): wrap an
array argument, push `[text, cmd]` onto the undo stack, assign `undoText`
(notifying if changed), clear the redo stack, assign `redoText` back to
"Redo" (notifying if changed), notify `undoCount` with old value
`m_undos.length - 1`, and notify `redoCount` with the previous count if it
was non-zero. Returns the `true` the function always returns, the new state,
and the `notifyAll` calls in order. -/
def ETO_UndoRedoSystem.addUndo (s : ETO_UndoRedoSystem) (text : String)
    (cmdOrArrOfCmds : CmdArg) : Bool × ETO_UndoRedoSystem × List URNote :=
  let cmd := cmdOrArrOfCmds.wrap
  let undos := (text, cmd) :: s.m_undos
  let r1 := setTextProp "undoText" s.undoText text
  let previousRedoCount := s.m_redos.length
  let r2 := setTextProp "redoText" s.redoText "Redo"
  let n3 : List URNote := [⟨"undoCount", JSVal.vnum (((undos.length : Int) - 1 : Int) : ℚ)⟩]
  let n4 : List URNote :=
    if previousRedoCount ≠ 0 then
      [⟨"redoCount", JSVal.vnum ((previousRedoCount : Int) : ℚ)⟩]
    else []
  (true, ⟨undos, [], r1.1, r2.1⟩, r1.2 ++ r2.2 ++ n3 ++ n4)

/-- `ETO_UndoRedoSystem.prototype.execUndo` (part_001 lines 187-221): no-op
on an empty undo stack; otherwise pop `[text, cmd]`, run `cmd.exec()`, push
the returned inverse under `text` with its first "Undo" replaced by "Redo",
assign `redoText` (notifying if changed), notify `redoCount` (old value =
new length - 1), assign `undoText` to the new stack top or the default
(notifying if changed), and notify `undoCount` (old value = new length + 1). -/
def ETO_UndoRedoSystem.execUndo (s : ETO_UndoRedoSystem) :
    ETO_UndoRedoSystem × List URNote :=
  match s.m_undos with
  | [] => (s, [])
  | (text, cmd) :: rest =>
      let redo := cmd.exec
      let newRedoText := jsReplaceOnce text "Undo" "Redo"
      let redos := (newRedoText, redo) :: s.m_redos
      let r1 := setTextProp "redoText" s.redoText newRedoText
      let n2 : List URNote := [⟨"redoCount", JSVal.vnum (((redos.length : Int) - 1 : Int) : ℚ)⟩]
      let newUndoText :=
        match rest with
        | [] => "Undo"
        | (t, _) :: _ => t
      let r2 := setTextProp "undoText" s.undoText newUndoText
      let n4 : List URNote := [⟨"undoCount", JSVal.vnum (((rest.length : Int) + 1 : Int) : ℚ)⟩]
      (⟨rest, redos, r2.1, r1.1⟩, r1.2 ++ n2 ++ r2.2 ++ n4)

/-- `ETO_UndoRedoSystem.prototype.execRedo` (part_001 lines 147-181):
symmetric to `execUndo`, swapping the stacks and replacing "Redo" by "Undo"
in the popped label. -/
def ETO_UndoRedoSystem.execRedo (s : ETO_UndoRedoSystem) :
    ETO_UndoRedoSystem × List URNote :=
  match s.m_redos with
  | [] => (s, [])
  | (text, cmd) :: rest =>
      let undo := cmd.exec
      let newUndoText := jsReplaceOnce text "Redo" "Undo"
      let undos := (newUndoText, undo) :: s.m_undos
      let r1 := setTextProp "undoText" s.undoText newUndoText
      let n2 : List URNote := [⟨"undoCount", JSVal.vnum (((undos.length : Int) - 1 : Int) : ℚ)⟩]
      let newRedoText :=
        match rest with
        | [] => "Redo"
        | (t, _) :: _ => t
      let r2 := setTextProp "redoText" s.redoText newRedoText
      let n4 : List URNote := [⟨"redoCount", JSVal.vnum (((rest.length : Int) + 1 : Int) : ℚ)⟩]
      (⟨undos, rest, r1.1, r2.1⟩, r1.2 ++ n2 ++ r2.2 ++ n4)

/-! ## Claims -/

theorem removeHandle_length_le (l : List ObserverHandle) (h : ObserverHandle) :
    (removeHandle l h).length ≤ l.length := by
  induction l with
  | nil => simp [removeHandle]
  | cons o rest ih =>
      by_cases h2 : o = h <;> simp [removeHandle, h2] <;> omega

theorem removeById_length_le (l : List ObserverHandle) (hid : Nat) :
    (removeById l hid).length ≤ l.length := by
  induction l with
  | nil => simp [removeById]
  | cons o rest ih =>
      by_cases h2 : o.id = hid <;> simp [removeById, h2] <;> omega

theorem applyAction_length_le (obs : List ObserverHandle) (ob : ObserverHandle) :
    (applyAction obs ob).length ≤ obs.length := by
  unfold applyAction
  match ob.action with
  | .record => exact Nat.le_refl _
  | .removeSelf => exact removeHandle_length_le obs ob
  | .removeById hid => exact removeById_length_le obs hid

/-- C2 (falsified by the code): on the list `[0, 1, 2]`,
`splice(0, 1)` removes exactly one item (the state becomes `[1, 2]` and one
"remove" event fires) yet returns `[0, 1, 2]` — every item from the start
index to the end — instead of the array `[0]` of removed items, because the
`removedItems` loop runs to the end of the storage array. -/
theorem splice_returns_more_than_removed :
    let s : ETO_ObservableList :=
      ⟨[(JSVal.vnum 0, none), (JSVal.vnum 1, none), (JSVal.vnum 2, none)], none⟩
    (s.splice 0 (some 1) []).1 = [JSVal.vnum 0, JSVal.vnum 1, JSVal.vnum 2] ∧
    (s.splice 0 (some 1) []).2.1.m_storage.map Prod.fst = [JSVal.vnum 1, JSVal.vnum 2] ∧
    ((s.splice 0 (some 1) []).2.2.map ListEvent.listChangeType = [some "remove"]) ∧
    (s.splice 0 (some 1) []).1 ≠ [JSVal.vnum 0] := by
  decide

/-- C6 (falsified by the code): `add(item, 0.5)` on a one-element list is not
rejected: `parseInt("0.5", 10)` yields `0`, so the item is inserted at index
0 and `true` is returned, although 0.5 is not an integer index in
`[0, length]`. -/
theorem add_fractional_index_coerced :
    let s : ETO_ObservableList := ⟨[(JSVal.vnum 0, none)], none⟩
    (s.add (JSVal.vnum 1) (some (mkRat 1 2))).1 = true ∧
    (s.add (JSVal.vnum 1) (some (mkRat 1 2))).2.1.m_storage.map Prod.fst =
      [JSVal.vnum 1, JSVal.vnum 0] := by
  decide

/-- C4: starting from empty stacks, `addUndo("Undo: set x", [cmd])` yields
`undoCount = 1`, `redoCount = 0`, `undoText = "Undo: set x"`; `execUndo()`
then yields `undoCount = 0`, `redoCount = 1` and
`redoText = "Redo: set x"` (the label with "Undo" replaced by "Redo"); a
final `execRedo()` restores `undoCount = 1`, `redoCount = 0`. The command's
`exec` chain always yields a further invertible command. -/
theorem undo_redo_scenario :
    let cmd : Cmd := Cmd.prim (Cmd.prim (Cmd.prim (Cmd.composite [])))
    let s1 := (ETO_UndoRedoSystem.init.addUndo "Undo: set x" (CmdArg.arr [cmd])).2.1
    let s2 := s1.execUndo.1
    let s3 := s2.execRedo.1
    (s1.m_undos.length = 1 ∧ s1.m_redos.length = 0 ∧ s1.undoText = "Undo: set x") ∧
    (s2.m_undos.length = 0 ∧ s2.m_redos.length = 1 ∧ s2.redoText = "Redo: set x") ∧
    (s3.m_undos.length = 1 ∧ s3.m_redos.length = 0) := by
  decide

/-- C1 counterexample: add an `ETO_Observable` item to an empty list (its
subscription captures insertion index 0), then insert a plain value at index
0, shifting the item to position 1. Mutating a property of the item now
produces exactly one forwarded notification on the list, but its `index`
field is still 0, not the item's current position 1 — the claim that the
forwarded index equals the current position is false. -/
theorem forwarded_index_is_stale :
    let s1 := ((⟨[], none⟩ : ETO_ObservableList).add (JSVal.vobs 0) none).2.1
    let s2 := (s1.add (JSVal.vnum 1) (some ((0 : Int) : ℚ))).2.1
    (s2.forwardItemChange (JSVal.vobs 0) "p" JSVal.undef).map ListEvent.index = [0] ∧
    s2.positionsOf (JSVal.vobs 0) = [1] ∧
    (s2.forwardItemChange (JSVal.vobs 0) "p" JSVal.undef).map ListEvent.index ≠ [1] := by
  decide

/-- C3 counterexample: an observable object with a plain property `x` and two
observers, the first of which unregisters itself from within its callback.
Assigning a new value to `x` runs one notification pass, but only observer 0
is invoked: the removal shifts the live array so the loop skips observer 1,
which was registered when notification began — the pass is not over a
snapshot. -/
theorem notification_pass_not_snapshot :
    let o : ETO_Observable :=
      ⟨[⟨"x", JSVal.vnum 1, true, true, PropKind.plain⟩],
        [⟨0, ObsAction.removeSelf⟩, ⟨1, ObsAction.record⟩], true⟩
    (o.assign "x" (JSVal.vnum 2)).2 = [0] ∧
    o.m_observers.map ObserverHandle.id = [0, 1] ∧
    (o.assign "x" (JSVal.vnum 2)).2 ≠ o.m_observers.map ObserverHandle.id := by
  decide

/-- C7 counterexample: a non-simple observable with one privately-settable
property `p` holding the number 5. `toJSON` serializes it with
`writable: true` (the accessor descriptor owns a `set` key even though its
value is `undefined`), so the reconstructed object carries an ordinarily
writable plain property: same name and value, but the writable flag flipped
from false to true — assignment now changes the reconstructed property while
it never changed the original. -/
theorem roundtrip_flips_private_set_writable :
    let o : ETO_Observable :=
      ⟨[⟨"p", JSVal.vnum 5, true, false, PropKind.privateSet⟩], [], false⟩
    let d : SerializedProp := ⟨"p", JSVal.vnum 5, true, true, false, "number"⟩
    o.serializedData = some [d] ∧
    (ETO_Observable.ofSerializedData [d] false).map
      (fun o2 => o2.props.map ObsProp.name) = some ["p"] ∧
    (ETO_Observable.ofSerializedData [d] false).map
      (fun o2 => o2.props.map ObsProp.value) = some [JSVal.vnum 5] ∧
    (ETO_Observable.ofSerializedData [d] false).map
      (fun o2 => o2.props.map ObsProp.isWritable) = some [true] ∧
    o.props.map ObsProp.isWritable = [false] ∧
    (ETO_Observable.ofSerializedData [d] false).map
      (fun o2 => (o2.assign "p" (JSVal.vnum 7)).1.props.map ObsProp.value) =
      some [JSVal.vnum 7] ∧
    (o.assign "p" (JSVal.vnum 7)).1.props.map ObsProp.value = [JSVal.vnum 5] := by
  refine ⟨rfl, rfl, rfl, rfl, rfl, rfl, rfl⟩

/-- C9: `push` is the very same function as `add` (assigned from it at
part_000 line 955): it agrees with `add` on every state and argument;
called with one argument it appends the item at the end — subject to the
same validator and with the same subscription for observable items — and
returns `add`'s boolean, `true` on success and `false` on rejection, not the
new length `Array.prototype.push` would return. -/
theorem push_is_add (s : ETO_ObservableList) (item : JSVal) (idx : Option ℚ) :
    s.push item idx = s.add item idx ∧
    (s.validatorAccepts item = true →
      s.push item none = (true,
        ⟨s.m_storage ++
            [(item, if item.isObservable then some ⟨item, s.m_storage.length⟩ else none)],
          s.m_addValidator⟩,
        [⟨some "add", toString s.m_storage.length, s.m_storage.length, none, none⟩])) ∧
    (s.validatorAccepts item = false →
      s.push item none = (false, s, [])) := by
  refine ⟨rfl, fun hv => ?_, fun hv => ?_⟩
  · show s.add item none = _
    simp only [ETO_ObservableList.add, ETO_ObservableList.addChecked, hv, if_true,
      List.insertIdx_length_self]
  · show s.add item none = _
    simp only [ETO_ObservableList.add, ETO_ObservableList.addChecked, hv,
      Bool.false_eq_true, if_false]

/-- C9 witness: on a concrete validator-free list, `push` coincides with
`add` and appends at the end returning `true`. -/
theorem push_is_add_witness :
    (ETO_ObservableList.push ⟨[(JSVal.vnum 0, none)], none⟩ (JSVal.vnum 1) none =
        ETO_ObservableList.add ⟨[(JSVal.vnum 0, none)], none⟩ (JSVal.vnum 1) none) ∧
    ETO_ObservableList.push ⟨[(JSVal.vnum 0, none)], none⟩ (JSVal.vnum 1) none =
      (true, ⟨[(JSVal.vnum 0, none), (JSVal.vnum 1, none)], none⟩,
        [⟨some "add", "1", 1, none, none⟩]) := by
  have h := push_is_add ⟨[(JSVal.vnum 0, none)], none⟩ (JSVal.vnum 1) none
  exact ⟨h.1, by simpa using h.2.1 rfl⟩

/-- C8 counterexample: a set-filter property `x = 1` whose filter ignores its
arguments and returns 2, with one registered observer. Assigning 1 — a value
strictly equal (`===`) to the current one — is NOT a silent no-op: the setter
first runs the filter (part_000 line 357) and compares the FILTERED value
with the current one, so the property changes to 2 and the observer is
invoked; the claim over every writable property is false for set-filter
properties. -/
theorem filtered_strict_equal_assignment_notifies :
    let o : ETO_Observable :=
      ⟨[⟨"x", JSVal.vnum 1, true, true,
          PropKind.filtered fun _ _ => JSVal.vnum 2⟩],
        [⟨0, ObsAction.record⟩], true⟩
    (o.assign "x" (JSVal.vnum 1)).1.props.map ObsProp.value = [JSVal.vnum 2] ∧
    (o.assign "x" (JSVal.vnum 1)).2 = [0] ∧
    (o.assign "x" (JSVal.vnum 1)).2 ≠ [] := by
  decide

/-- C8 amended: assignment of a value strictly equal (`===`) to the current
value is a complete no-op on a plain writable property, and so is a call of
the private setter with the backing value: the returned state is the very
same object state — property values, all other properties and the observer
list unchanged — and the notification log is empty, so no observer callback
ran. A set-filter property instead compares the FILTER'S OUTPUT with the
current value: the strictly-equal assignment is a silent no-op exactly when
the filter maps the value back to the current one, and otherwise changes the
property and notifies (see the counterexample). -/
theorem strict_equal_assignment_silent (o : ETO_Observable) (nm : String)
    (p : ObsProp) (v : JSVal) (hfind : findProp o.props nm = some p)
    (hval : p.value = v) :
    (p.kind = PropKind.plain → o.assign nm v = (o, [])) ∧
    (p.kind = PropKind.privateSet → o.privateSetCall nm v = (o, [])) ∧
    (∀ f, p.kind = PropKind.filtered f → f v p.value = p.value →
      o.assign nm v = (o, [])) := by
  refine ⟨?_, ?_, ?_⟩
  · intro hk
    simp [ETO_Observable.assign, hfind, hk, hval]
  · intro hk
    simp [ETO_Observable.privateSetCall, hfind, hval]
  · intro f hk hf
    simp [ETO_Observable.assign, hfind, hk, hf]

/-- C8 witness: on concrete objects with a plain property `a = 1`, a
privately-settable property `b = 2` and a set-filter property `c = 3` whose
filter is the identity on its first argument (each with one registered
observer), the strictly-equal assignment, private-setter call and filtered
assignment all change nothing and invoke no observer. -/
theorem strict_equal_assignment_silent_witness :
    ((⟨[⟨"a", JSVal.vnum 1, true, true, PropKind.plain⟩],
        [⟨0, ObsAction.record⟩], true⟩ : ETO_Observable).assign "a" (JSVal.vnum 1) =
      (⟨[⟨"a", JSVal.vnum 1, true, true, PropKind.plain⟩],
        [⟨0, ObsAction.record⟩], true⟩, [])) ∧
    ((⟨[⟨"b", JSVal.vnum 2, true, false, PropKind.privateSet⟩],
        [⟨0, ObsAction.record⟩], true⟩ : ETO_Observable).privateSetCall "b"
        (JSVal.vnum 2) =
      (⟨[⟨"b", JSVal.vnum 2, true, false, PropKind.privateSet⟩],
        [⟨0, ObsAction.record⟩], true⟩, [])) ∧
    ((⟨[⟨"c", JSVal.vnum 3, true, true, PropKind.filtered fun nv _ => nv⟩],
        [⟨0, ObsAction.record⟩], true⟩ : ETO_Observable).assign "c" (JSVal.vnum 3) =
      (⟨[⟨"c", JSVal.vnum 3, true, true, PropKind.filtered fun nv _ => nv⟩],
        [⟨0, ObsAction.record⟩], true⟩, [])) := by
  refine ⟨?_, ?_, ?_⟩
  · exact (strict_equal_assignment_silent
      ⟨[⟨"a", JSVal.vnum 1, true, true, PropKind.plain⟩], [⟨0, ObsAction.record⟩], true⟩
      "a" ⟨"a", JSVal.vnum 1, true, true, PropKind.plain⟩ (JSVal.vnum 1) rfl rfl).1 rfl
  · exact (strict_equal_assignment_silent
      ⟨[⟨"b", JSVal.vnum 2, true, false, PropKind.privateSet⟩], [⟨0, ObsAction.record⟩], true⟩
      "b" ⟨"b", JSVal.vnum 2, true, false, PropKind.privateSet⟩ (JSVal.vnum 2) rfl rfl).2.1 rfl
  · exact (strict_equal_assignment_silent
      ⟨[⟨"c", JSVal.vnum 3, true, true, PropKind.filtered fun nv _ => nv⟩],
        [⟨0, ObsAction.record⟩], true⟩
      "c" ⟨"c", JSVal.vnum 3, true, true, PropKind.filtered fun nv _ => nv⟩
      (JSVal.vnum 3) rfl rfl).2.2 (fun nv _ => nv) rfl rfl

/-- C5: for every stack state, `addUndo(label, commandOrCommands)` pushes the
(label, wrapped command) pair onto the undo stack, always leaves the redo
stack empty, sets `undoText` to the label and `redoText` to its default
"Redo", makes exactly one `undoCount` notification (old value = the previous
count), and makes a `redoCount` notification exactly when the redo stack was
non-empty before the call. -/
theorem addUndo_spec (s : ETO_UndoRedoSystem) (label : String) (arg : CmdArg) :
    ((s.addUndo label arg).2.1.m_undos = (label, arg.wrap) :: s.m_undos) ∧
    ((s.addUndo label arg).2.1.m_redos = []) ∧
    ((s.addUndo label arg).2.1.undoText = label) ∧
    ((s.addUndo label arg).2.1.redoText = "Redo") ∧
    ((s.addUndo label arg).2.2.filter (fun n => n.name == "undoCount") =
      [⟨"undoCount", JSVal.vnum ((s.m_undos.length : Int) : ℚ)⟩]) ∧
    ((s.addUndo label arg).2.2.filter (fun n => n.name == "redoCount") ≠ [] ↔
      s.m_redos ≠ []) := by
  unfold ETO_UndoRedoSystem.addUndo setTextProp
  refine ⟨rfl, rfl, ?_, ?_, ?_, ?_⟩
  · by_cases h1 : s.undoText = label <;> simp [h1]
  · by_cases h2 : s.redoText = "Redo" <;> simp [h2]
  · by_cases h1 : s.undoText = label <;>
      by_cases h2 : s.redoText = "Redo" <;>
      by_cases h3 : s.m_redos.length = 0 <;>
      simp [h1, h2, h3, List.filter_append]
  · by_cases h3 : s.m_redos.length = 0
    · have h3b : s.m_redos = [] := List.length_eq_zero.mp h3
      by_cases h1 : s.undoText = label <;> by_cases h2 : s.redoText = "Redo" <;>
        simp [h1, h2, h3, h3b, List.filter_append]
    · have h3b : s.m_redos ≠ [] := by
        intro hx
        rw [hx] at h3
        simp at h3
      by_cases h1 : s.undoText = label <;> by_cases h2 : s.redoText = "Redo" <;>
        simp [h1, h2, h3, h3b, List.filter_append]

theorem notifyLoop_all_record (obs : List ObserverHandle)
    (hrec : ∀ h ∈ obs, h.action = ObsAction.record) :
    ∀ (fuel i : Nat), obs.length ≤ fuel + i → ∀ log,
      notifyLoop fuel obs i log = (obs, log ++ (obs.drop i).map ObserverHandle.id) := by
  intro fuel
  induction fuel with
  | zero =>
      intro i hi log
      have hdrop : obs.drop i = [] := List.drop_eq_nil_of_le (by omega)
      simp [notifyLoop, hdrop]
  | succ fuel ih =>
      intro i hi log
      unfold notifyLoop
      by_cases hlt : i < obs.length
      · rw [dif_pos hlt]
        have ha : (obs.get ⟨i, hlt⟩).action = ObsAction.record :=
          hrec _ (obs.get_mem i hlt)
        have happ : applyAction obs (obs.get ⟨i, hlt⟩) = obs := by
          unfold applyAction
          rw [ha]
        rw [happ, ih (i + 1) (by omega)]
        have hdi : obs.drop i = obs.get ⟨i, hlt⟩ :: obs.drop (i + 1) := by
          rw [List.drop_eq_getElem_cons hlt]
          simp
        rw [hdi, List.map_cons]
        simp
      · rw [dif_neg hlt]
        have hdrop : obs.drop i = [] := List.drop_eq_nil_of_le (by omega)
        simp [hdrop]

/-- C3 amended: a property change performs exactly one notification pass, but
over the LIVE observer array, iterated by increasing index, not over a
snapshot: when no callback mutates the registry during the pass, exactly the
observers registered at its start are invoked, once each, in registration
order (and the registry is unchanged afterwards); a callback that
unregisters an observer at or before its own position shifts the later
entries and can make the pass skip them. -/
theorem live_pass_runs_registered_observers (o : ETO_Observable) (nm : String)
    (p : ObsProp) (v : JSVal) (hfind : findProp o.props nm = some p)
    (hkind : p.kind = PropKind.plain) (hne : p.value ≠ v)
    (hrec : ∀ h ∈ o.m_observers, h.action = ObsAction.record) :
    o.assign nm v =
      (⟨setPropValue o.props nm v, o.m_observers, o.m_simpleSerialize⟩,
        o.m_observers.map ObserverHandle.id) := by
  have hloop := notifyLoop_all_record o.m_observers hrec o.m_observers.length 0
    (by omega) []
  simp only [List.drop_zero, List.nil_append] at hloop
  simp [ETO_Observable.assign, hfind, hkind, hne, notifyAllLog, hloop]

/-- C3 witness: a concrete object with a plain property `x = 1` and two
purely-recording observers; assigning 2 invokes both observers in order and
leaves the registry unchanged. -/
theorem live_pass_runs_registered_observers_witness :
    (⟨[⟨"x", JSVal.vnum 1, true, true, PropKind.plain⟩],
        [⟨0, ObsAction.record⟩, ⟨1, ObsAction.record⟩], true⟩ : ETO_Observable).assign
      "x" (JSVal.vnum 2) =
      (⟨[⟨"x", JSVal.vnum 2, true, true, PropKind.plain⟩],
        [⟨0, ObsAction.record⟩, ⟨1, ObsAction.record⟩], true⟩, [0, 1]) := by
  have h := live_pass_runs_registered_observers
    ⟨[⟨"x", JSVal.vnum 1, true, true, PropKind.plain⟩],
      [⟨0, ObsAction.record⟩, ⟨1, ObsAction.record⟩], true⟩
    "x" ⟨"x", JSVal.vnum 1, true, true, PropKind.plain⟩ (JSVal.vnum 2) rfl rfl
    (by decide) (by decide)
  simpa using h

/-- C10: in all three add functions the duplicate-name rejection is exactly
the test `this[name] !== undefined`: given a non-reserved name, an add
returns its failure value (`false` result with nothing changed and nobody
notified) precisely when the lookup of the name on the instance is defined —
which is the case for any inherited prototype member even with no own
property of that name, and is not the case for an own property currently
holding `undefined`, which therefore does not block a new add (the add then
succeeds whenever that stale property is configurable). -/
theorem duplicate_check_is_defined_lookup (o : ETO_Observable) (nm : String)
    (v : JSVal) (f : JSVal → JSVal → JSVal) (rem wr en : Option Bool) (p : ObsProp)
    (hnm : nm ≠ "ETO_Observable_Properties") :
    (o.addProperty (some nm) v rem wr en = some (false, o, []) ↔
      o.memberIsDefined nm = true) ∧
    (o.addPropertyWithPrivateSet (some nm) v en = some (false, o, []) ↔
      o.memberIsDefined nm = true) ∧
    (o.addPropertyWithSetFilter (some nm) v (some f) rem en = some (false, o, []) ↔
      o.memberIsDefined nm = true) ∧
    (findProp o.props nm = none → nm ∈ observableProtoNames →
      o.memberIsDefined nm = true) ∧
    (findProp o.props nm = some p → p.value = JSVal.undef →
      nm ∉ internalSlotNames → o.memberIsDefined nm = false) ∧
    (findProp o.props nm = some p → p.value = JSVal.undef →
      nm ∉ internalSlotNames → p.configurable = true →
      ∃ o2 log, o.addProperty (some nm) v rem wr en = some (true, o2, log)) := by
  have hdef : ∀ (hf : findProp o.props nm = some p), p.value = JSVal.undef →
      nm ∉ internalSlotNames → o.memberIsDefined nm = false := by
    intro hf hv hint
    unfold ETO_Observable.memberIsDefined
    rw [hf]
    simp [hv, List.contains, List.elem_eq_mem, hint]
  refine ⟨?_, ?_, ?_, ?_, hdef, ?_⟩
  · simp only [ETO_Observable.addProperty]
    rw [if_neg hnm]
    by_cases hd : o.memberIsDefined nm
    · simp [hd]
    · simp only [hd, Bool.false_eq_true, if_false]
      rcases hf : findProp o.props nm with _ | q
      · simp
      · by_cases hc : q.configurable <;>
          by_cases hro : (!wr.getD true && q.kind.isReadOnlyData && q.value == v &&
            q.enumerable == en.getD true && !rem.getD true) = true <;>
          simp [hc, hro]
  · simp only [ETO_Observable.addPropertyWithPrivateSet]
    rw [if_neg hnm]
    by_cases hd : o.memberIsDefined nm
    · simp [hd]
    · simp only [hd, Bool.false_eq_true, if_false]
      rcases hf : findProp o.props nm with _ | q
      · simp
      · by_cases hc : q.configurable <;> simp [hc]
  · simp only [ETO_Observable.addPropertyWithSetFilter]
    rw [if_neg hnm]
    by_cases hd : o.memberIsDefined nm
    · simp [hd]
    · simp only [hd, Bool.false_eq_true, if_false]
      rcases hf : findProp o.props nm with _ | q
      · simp
      · by_cases hc : q.configurable <;> simp [hc]
  · intro hf hproto
    unfold ETO_Observable.memberIsDefined
    rw [hf]
    simp [List.contains, List.elem_eq_mem, hproto]
  · intro hf hv hint hc
    simp only [ETO_Observable.addProperty]
    rw [if_neg hnm, if_neg (by simp [hdef hf hv hint])]
    simp only [hf, hc, if_true]
    exact ⟨_, _, rfl⟩

/-- C10 witness: on a fresh observable, adding "toString" — an inherited
prototype member, no own property — is rejected; an own plain property `x`
currently holding `undefined` leaves the lookup undefined and a new add of `x`
succeeds. -/
theorem duplicate_check_is_defined_lookup_witness :
    ((⟨[], [], true⟩ : ETO_Observable).addProperty (some "toString") (JSVal.vnum 1)
        none none none = some (false, ⟨[], [], true⟩, [])) ∧
    ((⟨[⟨"x", JSVal.undef, true, true, PropKind.plain⟩], [], true⟩ :
        ETO_Observable).memberIsDefined "x" = false) ∧
    (∃ o2 log, (⟨[⟨"x", JSVal.undef, true, true, PropKind.plain⟩], [], true⟩ :
        ETO_Observable).addProperty (some "x") (JSVal.vnum 5) none none none =
      some (true, o2, log)) := by
  refine ⟨?_, ?_, ?_⟩
  · exact (duplicate_check_is_defined_lookup ⟨[], [], true⟩ "toString" (JSVal.vnum 1)
      (fun a _ => a) none none none ⟨"x", JSVal.undef, true, true, PropKind.plain⟩
      (by decide)).1.mpr (by decide)
  · exact (duplicate_check_is_defined_lookup
      ⟨[⟨"x", JSVal.undef, true, true, PropKind.plain⟩], [], true⟩ "x" (JSVal.vnum 5)
      (fun a _ => a) none none none ⟨"x", JSVal.undef, true, true, PropKind.plain⟩
      (by decide)).2.2.2.2.1 rfl rfl (by decide)
  · exact (duplicate_check_is_defined_lookup
      ⟨[⟨"x", JSVal.undef, true, true, PropKind.plain⟩], [], true⟩ "x" (JSVal.vnum 5)
      (fun a _ => a) none none none ⟨"x", JSVal.undef, true, true, PropKind.plain⟩
      (by decide)).2.2.2.2.2 rfl rfl (by decide) rfl

theorem wfStorage_addChecked (s : ETO_ObservableList) (item : JSVal) (idx : Nat)
    (hwf : s.WFStorage) : (s.addChecked item idx).2.1.WFStorage := by
  unfold ETO_ObservableList.addChecked
  by_cases hv : s.validatorAccepts item = true
  · rw [if_pos hv]
    intro tup htup
    simp only at htup
    by_cases hle : idx ≤ s.m_storage.length
    · rcases (List.mem_insertIdx hle).1 htup with h | h
      · subst h
        by_cases hobs : item.isObservable = true <;> simp [hobs]
      · exact hwf tup h
    · rw [List.insertIdx_of_length_lt _ _ _ (by omega)] at htup
      exact hwf tup htup
  · rw [if_neg hv]
    exact hwf

theorem wfStorage_add (s : ETO_ObservableList) (item : JSVal) (idx : Option ℚ)
    (hwf : s.WFStorage) : (s.add item idx).2.1.WFStorage := by
  unfold ETO_ObservableList.add
  match idx with
  | none => exact wfStorage_addChecked s item _ hwf
  | some q =>
      by_cases hr : jsParseIntDecimal q < 0 ∨ jsParseIntDecimal q > (s.m_storage.length : Int)
      · simp only [hr, if_true]
        exact hwf
      · simp only [hr, if_false]
        exact wfStorage_addChecked s item _ hwf

theorem wfStorage_remove (s : ETO_ObservableList) (a : Int) (c : Option Int)
    (hwf : s.WFStorage) : (s.remove a c).2.1.WFStorage := by
  unfold ETO_ObservableList.remove
  by_cases h1 : a < 0 ∨ a ≥ (s.m_storage.length : Int)
  · simp only [h1, if_true]
    exact hwf
  · simp only [h1, if_false]
    by_cases h2 : c.getD 1 ≤ 0
    · simp only [h2, if_true]
      exact hwf
    · simp only [h2, if_false]
      intro tup htup
      rcases List.mem_append.1 htup with h | h
      · exact hwf tup (List.take_subset _ _ h)
      · exact hwf tup (List.drop_subset _ _ h)

theorem wfStorage_setIndex (s : ETO_ObservableList) (i : Nat) (it : JSVal)
    (hwf : s.WFStorage) : (s.setIndex i it).1.WFStorage := by
  unfold ETO_ObservableList.setIndex
  rcases hg : s.m_storage[i]? with _ | tup0
  · exact hwf
  · by_cases he : tup0.1 = it
    · simp only [he, if_true]
      exact hwf
    · simp only [he, if_false]
      intro tup htup
      rcases List.mem_or_eq_of_mem_set htup with h | h
      · exact hwf tup h
      · subst h
        by_cases hobs : it.isObservable = true <;> simp [hobs]

theorem wfStorage_spliceInsertLoop (start : Int) (items : List JSVal) :
    ∀ (s : ETO_ObservableList) (k : Nat), s.WFStorage →
      (spliceInsertLoop start s items k).1.WFStorage := by
  induction items with
  | nil =>
      intro s k hwf
      exact hwf
  | cons it rest ih =>
      intro s k hwf
      exact ih _ _ (wfStorage_add s it _ hwf)

theorem wfStorage_splice (s : ETO_ObservableList) (a : Int) (d : Option Int)
    (items : List JSVal) (hwf : s.WFStorage) : (s.splice a d items).2.1.WFStorage := by
  unfold ETO_ObservableList.splice
  exact wfStorage_spliceInsertLoop _ _ _ _ (wfStorage_remove s _ _ hwf)

/-- Every reachable list state satisfies the storage invariant. -/
theorem reach_wfStorage (s : ETO_ObservableList) (hr : s.Reach) : s.WFStorage := by
  induction hr with
  | init valid =>
      intro tup htup
      simp at htup
  | add s item idx hr ih => exact wfStorage_add s item idx ih
  | remove s a c hr ih => exact wfStorage_remove s a c ih
  | setIndex s i it hr ih => exact wfStorage_setIndex s i it ih
  | splice s a d items hr ih => exact wfStorage_splice s a d items ih

theorem forward_filterMap_of_count_zero (target : JSVal) (pn : String) (ov : JSVal)
    (storage : List (JSVal × Option ListSub))
    (hcount : (storage.map Prod.fst).count target = 0) :
    storage.filterMap (fun tup =>
      if tup.1 = target then
        tup.2.map fun sub =>
          (⟨none, pn, sub.index, some sub.listItem, some ov⟩ : ListEvent)
      else none) = [] := by
  induction storage with
  | nil => rfl
  | cons tup rest ih =>
      simp only [List.map_cons, List.count_cons] at hcount
      have hne : ¬(tup.1 = target) := by
        intro h
        simp [h] at hcount
      rw [List.filterMap_cons]
      simp only [hne, if_false]
      exact ih (by omega)

theorem forward_core (target : JSVal) (pn : String) (ov : JSVal)
    (storage : List (JSVal × Option ListSub))
    (hwf : ∀ tup ∈ storage,
      match tup.2 with
      | none => tup.1.isObservable = false
      | some sub => sub.listItem = tup.1 ∧ tup.1.isObservable = true)
    (hobs : target.isObservable = true)
    (hcount : (storage.map Prod.fst).count target = 1) :
    ∃ (pos : Nat) (sub : ListSub),
      storage[pos]? = some (target, some sub) ∧ sub.listItem = target ∧
      storage.filterMap (fun tup =>
        if tup.1 = target then
          tup.2.map fun sub =>
            (⟨none, pn, sub.index, some sub.listItem, some ov⟩ : ListEvent)
        else none) = [⟨none, pn, sub.index, some sub.listItem, some ov⟩] := by
  induction storage with
  | nil => simp at hcount
  | cons tup rest ih =>
      by_cases heq : tup.1 = target
      · have hzero : (rest.map Prod.fst).count target = 0 := by
          simp only [List.map_cons, List.count_cons, heq, if_pos rfl] at hcount
          simp at hcount
          omega
        rcases hsub : tup.2 with _ | sub
        · have := hwf tup (List.mem_cons_self tup rest)
          rw [hsub] at this
          simp only at this
          rw [heq] at this
          rw [this] at hobs
          cases hobs
        · have hpair := hwf tup (List.mem_cons_self tup rest)
          rw [hsub] at hpair
          simp only at hpair
          refine ⟨0, sub, ?_, ?_, ?_⟩
          · have htup : tup = (target, some sub) := by
              rcases tup with ⟨a, b⟩
              simp only at heq hsub
              rw [heq, hsub]
            rw [htup]
            simp
          · rw [hpair.1, heq]
          · rw [List.filterMap_cons,
              forward_filterMap_of_count_zero target pn ov rest hzero]
            simp [heq, hsub]
      · have hone : (rest.map Prod.fst).count target = 1 := by
          simp only [List.map_cons, List.count_cons] at hcount
          simpa [heq] using hcount
        obtain ⟨pos, sub, hget, hli, hfm⟩ :=
          ih (fun t ht => hwf t (List.mem_cons_of_mem tup ht)) hone
        refine ⟨pos + 1, sub, ?_, hli, ?_⟩
        · simpa using hget
        · rw [List.filterMap_cons]
          simp only [heq, if_false]
          exact hfm

/-- C1 amended: in every reachable list state, an item that occurs at exactly
one position and is an `ETO_Observable` sits in a tuple holding a live
subscription whose captured `listItem` is that item, and mutating one of the
item's properties produces EXACTLY ONE forwarded notification on the list,
carrying the item reference and the `index` the subscription captured when it
was created (the item's insertion or replacement position) — which is the
item's current position only as long as no earlier-position insertions or
removals have shifted the item since. -/
theorem forwarded_event_carries_captured_index (s : ETO_ObservableList)
    (hr : s.Reach) (target : JSVal) (pn : String) (ov : JSVal)
    (hobs : target.isObservable = true)
    (hcount : (s.m_storage.map Prod.fst).count target = 1) :
    ∃ (pos : Nat) (sub : ListSub),
      s.m_storage[pos]? = some (target, some sub) ∧
      sub.listItem = target ∧
      s.forwardItemChange target pn ov =
        [⟨none, pn, sub.index, some sub.listItem, some ov⟩] :=
  forward_core target pn ov s.m_storage (reach_wfStorage s hr) hobs hcount

/-- C1 witness: the stale-index state — an observable added to the empty
list, then a plain value inserted before it — is reachable; applying the
theorem there exhibits its unique live subscription and the single forwarded
event with the captured index. -/
theorem forwarded_event_carries_captured_index_witness :
    ∃ (pos : Nat) (sub : ListSub),
      (((⟨[], none⟩ : ETO_ObservableList).add (JSVal.vobs 0) none).2.1.add
          (JSVal.vnum 1) (some ((0 : Int) : ℚ))).2.1.m_storage[pos]? =
        some (JSVal.vobs 0, some sub) ∧
      sub.listItem = JSVal.vobs 0 ∧
      (((⟨[], none⟩ : ETO_ObservableList).add (JSVal.vobs 0) none).2.1.add
          (JSVal.vnum 1) (some ((0 : Int) : ℚ))).2.1.forwardItemChange
          (JSVal.vobs 0) "p" JSVal.undef =
        [⟨none, "p", sub.index, some sub.listItem, some JSVal.undef⟩] :=
  forwarded_event_carries_captured_index _
    (ETO_ObservableList.Reach.add _ (JSVal.vnum 1) (some ((0 : Int) : ℚ))
      (ETO_ObservableList.Reach.add ⟨[], none⟩ (JSVal.vobs 0) none
        (ETO_ObservableList.Reach.init none)))
    (JSVal.vobs 0) "p" JSVal.undef (by decide) (by decide)

theorem findProp_append (xs ys : List ObsProp) (nm : String) :
    findProp (xs ++ ys) nm =
      match findProp xs nm with
      | some p => some p
      | none => findProp ys nm := by
  induction xs with
  | nil => rfl
  | cons p ps ih =>
      by_cases h : p.name = nm <;> simp [findProp, h, ih]

theorem descOf_primitive (p : ObsProp) (hp : p.value.isPrimitive = true) :
    descOf p = some (primDescOf p) := by
  rcases hv : p.value <;> rw [hv] at hp <;>
    simp [JSVal.isPrimitive] at hp <;>
    simp [descOf, primDescOf, JSVal.varTypeName, hv]

theorem varType_primDescOf (p : ObsProp) (hp : p.value.isPrimitive = true) :
    (primDescOf p).varType = "string" ∨ (primDescOf p).varType = "boolean" ∨
      (primDescOf p).varType = "number" := by
  rcases hv : p.value <;> rw [hv] at hp <;>
    simp [JSVal.isPrimitive] at hp <;>
    simp [primDescOf, JSVal.varTypeName, hv]

theorem mapM_descOf_all_primitive (props : List ObsProp)
    (h : ∀ p ∈ props, p.value.isPrimitive = true) :
    props.mapM descOf = some (props.map primDescOf) := by
  induction props with
  | nil => rfl
  | cons p ps ih =>
      rw [List.mapM_cons, descOf_primitive p (h p (List.mem_cons_self p ps)),
        ih fun q hq => h q (List.mem_cons_of_mem p hq)]
      rfl

theorem addProperty_fresh (o : ETO_Observable) (nm : String) (v : JSVal)
    (rem wr en : Bool) (hobs : o.m_observers = [])
    (hvn : creatableName nm) (hfp : findProp o.props nm = none) :
    o.addProperty (some nm) v (some rem) (some wr) (some en) =
      some (true,
        ⟨o.props ++ [⟨nm, v, en, rem, if wr then .plain else .readOnly⟩],
          [], o.m_simpleSerialize⟩, []) := by
  obtain ⟨h1, h2, h3, h4⟩ := hvn
  have hmd : o.memberIsDefined nm = false := by
    unfold ETO_Observable.memberIsDefined
    rw [hfp]
    simp [List.contains, List.elem_eq_mem, h2, h3, h4]
  simp only [ETO_Observable.addProperty]
  rw [if_neg h1, if_neg (by simp [hmd])]
  simp only [hfp, Option.getD_some]
  rw [hobs]
  rfl

theorem ofSerialized_fold (descs : List SerializedProp) :
    ∀ (o0 : ETO_Observable), o0.m_observers = [] →
      (∀ d ∈ descs, creatableName d.name ∧
        (d.varType = "string" ∨ d.varType = "boolean" ∨ d.varType = "number") ∧
        findProp o0.props d.name = none) →
      (descs.map SerializedProp.name).Nodup →
      descs.foldlM (fun o d => (o.addDeserializedProperty d).map fun r => r.2.1) o0 =
        some ⟨o0.props ++ descs.map reconsProp, [], o0.m_simpleSerialize⟩ := by
  induction descs with
  | nil =>
      intro o0 hobs hok hnod
      rcases o0 with ⟨props, obs, ss⟩
      simp only at hobs
      subst hobs
      simp [List.foldlM]
  | cons d rest ih =>
      intro o0 hobs hok hnod
      obtain ⟨hvn, hvt, hfp⟩ := hok d (List.mem_cons_self d rest)
      have hstep : o0.addDeserializedProperty d =
          some (true, ⟨o0.props ++ [reconsProp d], [], o0.m_simpleSerialize⟩, []) := by
        unfold ETO_Observable.addDeserializedProperty
        rw [if_pos hvt, addProperty_fresh o0 d.name d.value d.configurable d.writable
          d.enumerable hobs hvn hfp]
        rfl
      rw [List.foldlM_cons, hstep]
      have hnodtail : (rest.map SerializedProp.name).Nodup := (List.nodup_cons.1 hnod).2
      have hfresh : d.name ∉ rest.map SerializedProp.name := (List.nodup_cons.1 hnod).1
      have := ih ⟨o0.props ++ [reconsProp d], [], o0.m_simpleSerialize⟩ rfl
        (fun d2 hd2 => by
          obtain ⟨hvn2, hvt2, hfp2⟩ := hok d2 (List.mem_cons_of_mem d hd2)
          refine ⟨hvn2, hvt2, ?_⟩
          have hne : ¬ d.name = d2.name := fun hx =>
            hfresh (hx ▸ List.mem_map_of_mem SerializedProp.name hd2)
          show findProp (o0.props ++ [reconsProp d]) d2.name = none
          rw [findProp_append]
          simp only [hfp2]
          simp [findProp, reconsProp, hne])
        hnodtail
      show List.foldlM (fun o d => Option.map (fun r => r.2.1) (o.addDeserializedProperty d))
        (⟨o0.props ++ [reconsProp d], [], o0.m_simpleSerialize⟩ : ETO_Observable) rest = _
      rw [this]
      simp

theorem findProp_map_roundtrip (props : List ObsProp) (p : ObsProp)
    (hmem : p ∈ props) (hnodup : (props.map ObsProp.name).Nodup) :
    findProp (props.map ObsProp.roundtrip) p.name = some p.roundtrip := by
  induction props with
  | nil => cases hmem
  | cons q qs ih =>
      rw [List.map_cons]
      by_cases h : q.name = p.name
      · rcases List.mem_cons.1 hmem with rfl | hmq
        · simp [findProp, ObsProp.roundtrip]
        · exfalso
          have hin : p.name ∈ qs.map ObsProp.name :=
            List.mem_map_of_mem ObsProp.name hmq
          rw [List.map_cons, List.nodup_cons] at hnodup
          exact hnodup.1 (h ▸ hin)
      · have hmq : p ∈ qs := by
          rcases List.mem_cons.1 hmem with rfl | hmq
          · exact absurd rfl h
          · exact hmq
        rw [List.map_cons, List.nodup_cons] at hnodup
        simp only [findProp, ObsProp.roundtrip]
        rw [if_neg h]
        exact ih hmq hnodup.2

theorem isWritable_roundtrip (p : ObsProp) (hps : p.kind.isPrivateSet = false) :
    p.roundtrip.isWritable = p.isWritable := by
  rcases p with ⟨nm, v, e, c, k⟩
  cases k <;>
    simp [ObsProp.roundtrip, ObsProp.isWritable, serializedWritable,
      PropKind.isPrivateSet] at hps ⊢

/-- A property named "m_toString" IS creatable through `addProperty` on a
fresh observable — nothing blocks the name — yet the serialization loop of
`toJSON` skips that name (part_000 line 484), so the property is silently
dropped: serializing the resulting object yields an empty descriptor list.
This is why the round-trip theorem must exclude the name explicitly. -/
theorem serialization_skips_m_toString :
    (∃ o2 log, (⟨[], [], false⟩ : ETO_Observable).addProperty (some "m_toString")
        (JSVal.vnum 1) none none none = some (true, o2, log)) ∧
    ETO_Observable.serializedData
      ⟨[⟨"m_toString", JSVal.vnum 1, true, true, PropKind.plain⟩], [], false⟩ =
      some [] := by
  exact ⟨⟨_, _, rfl⟩, rfl⟩

/-- C7 amended: serializing a non-simple observable whose own enumerable
properties all hold primitive values, NONE of which is privately-settable,
and NONE of which is named "m_toString" — a name `addProperty` accepts but
`toJSON` silently skips (part_000 line 484, see
`serialization_skips_m_toString`), so a property so named would simply be
dropped by the round-trip — through `toJSON`, then rebuilding through the
descriptor-list constructor path, yields an object with exactly those
enumerable properties, each with the same name, value, enumerable and
removable flags and the same writability; a privately-settable property, by
contrast, re-emerges as an ordinarily writable one (see the counterexample).
The `creatableName` hypothesis says the duplicate check let the properties
be created in the first place. -/
theorem roundtrip_preserves_nonprivate_props (o : ETO_Observable) (b : Bool)
    (hsimple : o.m_simpleSerialize = false)
    (hok : ∀ p ∈ o.props, p.enumerable = true →
      p.value.isPrimitive = true ∧ creatableName p.name ∧
        p.name ≠ "m_toString" ∧ p.kind.isPrivateSet = false)
    (hnodup : ((o.props.filter fun p => p.enumerable).map ObsProp.name).Nodup) :
    ∃ ds, o.serializedData = some ds ∧
      ETO_Observable.ofSerializedData ds b =
        some ⟨(o.props.filter fun p => p.enumerable).map ObsProp.roundtrip, [], b⟩ ∧
      (∀ p ∈ o.props, p.enumerable = true →
        ∃ p2, findProp ((o.props.filter fun p => p.enumerable).map ObsProp.roundtrip)
            p.name = some p2 ∧
          p2.name = p.name ∧ p2.value = p.value ∧ p2.enumerable = true ∧
          p2.configurable = p.configurable ∧ p2.isWritable = p.isWritable) := by
  have hfilter : (o.props.filter fun p =>
      p.enumerable && !(p.name == "m_observers") && !(p.name == "m_toString")) =
      o.props.filter fun p => p.enumerable := by
    apply List.filter_congr
    intro p hp
    by_cases he : p.enumerable = true
    · obtain ⟨_, hvn, hmt, _⟩ := hok p hp he
      obtain ⟨_, hint, _, _⟩ := hvn
      have hmo : p.name ≠ "m_observers" := by
        intro hx
        exact hint (by rw [hx]; simp [internalSlotNames])
      simp [he, hmo, hmt]
    · simp at he
      simp [he]
  have hprim : ∀ p ∈ (o.props.filter fun p => p.enumerable),
      p.value.isPrimitive = true := by
    intro p hp
    rw [List.mem_filter] at hp
    exact (hok p hp.1 hp.2).1
  refine ⟨(o.props.filter fun p => p.enumerable).map primDescOf, ?_, ?_, ?_⟩
  · unfold ETO_Observable.serializedData
    rw [hfilter]
    exact mapM_descOf_all_primitive _ hprim
  · unfold ETO_Observable.ofSerializedData
    have hnames : ((o.props.filter fun p => p.enumerable).map primDescOf).map
        SerializedProp.name = (o.props.filter fun p => p.enumerable).map
        ObsProp.name := by
      rw [List.map_map]
      rfl
    have hfold := ofSerialized_fold
      ((o.props.filter fun p => p.enumerable).map primDescOf) ⟨[], [], b⟩ rfl
      (fun d hd => by
        rw [List.mem_map] at hd
        obtain ⟨p, hp, rfl⟩ := hd
        rw [List.mem_filter] at hp
        obtain ⟨hprim2, hvn, _, _⟩ := hok p hp.1 hp.2
        exact ⟨hvn, varType_primDescOf p hprim2, rfl⟩)
      (by rw [hnames]; exact hnodup)
    rw [hfold]
    simp only [List.nil_append, List.map_map]
    rfl
  · intro p hp he
    have hmemf : p ∈ (o.props.filter fun p => p.enumerable) := by
      rw [List.mem_filter]
      exact ⟨hp, by simp [he]⟩
    refine ⟨p.roundtrip, findProp_map_roundtrip _ p hmemf hnodup, rfl, rfl, ?_, rfl, ?_⟩
    · show p.enumerable = true
      exact he
    · exact isWritable_roundtrip p (hok p hp he).2.2.2

/-- C7 witness: a concrete non-simple observable with a plain string property
and a read-only number property round-trips to an object with the same
property list (names, values, flags and writability preserved). -/
theorem roundtrip_preserves_nonprivate_props_witness :
    let o : ETO_Observable :=
      ⟨[⟨"a", JSVal.vstr "hi", true, true, PropKind.plain⟩,
        ⟨"b", JSVal.vnum 3, true, false, PropKind.readOnly⟩], [], false⟩
    ∃ ds, o.serializedData = some ds ∧
      ETO_Observable.ofSerializedData ds false =
        some ⟨(o.props.filter fun p => p.enumerable).map ObsProp.roundtrip, [], false⟩ ∧
      (∀ p ∈ o.props, p.enumerable = true →
        ∃ p2, findProp ((o.props.filter fun p => p.enumerable).map ObsProp.roundtrip)
            p.name = some p2 ∧
          p2.name = p.name ∧ p2.value = p.value ∧ p2.enumerable = true ∧
          p2.configurable = p.configurable ∧ p2.isWritable = p.isWritable) := by
  intro o
  exact roundtrip_preserves_nonprivate_props o false rfl (by decide) (by decide)
